import Mathlib

/-!
Verification of the movie box-office analytics pipeline
(`src/movie_analytics.py`) against its natural-language specification.

The Python source is shallowly embedded: each pandas operation used by the
program is modelled as an executable Lean function over typed record lists,
and each analysis function (`snake`, `load_data`, `totals`, `top_films`,
`counts_by`, `runtime_extremes`, `not_overseas`, `ott_metrics`, the verdict
cleaning step) is translated directly from the source.  Monetary amounts are
rationals, missing values are `Option`, and fallible functions return
`Except String`.
-/

namespace MovieAnalytics

/-! ### Python string primitives

`str.strip`, `str.lower` and `str.replace` as used by `snake` (line 38) and
the verdict cleaning (line 92).  Python's `str.replace` is a single
left-to-right pass: after replacing an occurrence it resumes scanning after
the inserted replacement, so overlapping occurrences created by the
replacement itself are not rescanned. -/

/-- One left-to-right scan of `str.replace(pat, rep)`, structurally
recursive on a fuel bound.  Every step consumes at least one input
character, so `fuel = l.length` always suffices. -/
def replaceAux (pat rep : List Char) : Nat → List Char → List Char
  | 0, l => l
  | _ + 1, [] => []
  | fuel + 1, c :: cs =>
    if pat.isPrefixOf (c :: cs) ∧ pat ≠ [] then
      rep ++ replaceAux pat rep fuel (cs.drop (pat.length - 1))
    else
      c :: replaceAux pat rep fuel cs

/-- Python `str.replace(pat, rep)` on character lists: one left-to-right
scan.  After replacing an occurrence the scan resumes after the inserted
replacement.  An empty pattern is never used by the program; the input is
returned unchanged in that case. -/
def replaceList (pat rep l : List Char) : List Char :=
  replaceAux pat rep l.length l

/-- Python `str.replace` on strings. -/
def pyReplace (old new s : String) : String :=
  (replaceList old.toList new.toList s.toList).asString

/-- Python `str.strip()`: drop whitespace from both ends. -/
def pyStripChars (l : List Char) : List Char :=
  ((l.dropWhile Char.isWhitespace).reverse.dropWhile Char.isWhitespace).reverse

/-- Python `str.strip()` on strings. -/
def pyStrip (s : String) : String :=
  (pyStripChars s.toList).asString

/-- Python `str.lower()` (ASCII case folding, as in the source's labels). -/
def pyLower (s : String) : String :=
  (s.toList.map Char.toLower).asString

/-- Source function `snake` (line 38): canonical field label.  Lowercased and
stripped, `/ space ( ) -` become `_`, `+` becomes `plus`, then one
single-pass collapse of `__` to `_`. -/
def snake (s : String) : String :=
  pyReplace "__" "_"
    (pyReplace "+" "plus"
      (pyReplace "-" "_"
        (pyReplace ")" "_"
          (pyReplace "(" "_"
            (pyReplace " " "_"
              (pyReplace "/" "_"
                (pyLower (pyStrip s))))))))

/-! ### Data model for the loader/joiner (source lines 52-96)

After label normalization the fact table is joined left-outer onto the
three dimension tables.  We model the columns the joins and the claims
read; identifiers are naturals, descriptive fields strings, missing values
`Option`. -/

/-- One normalized fact-table row: the title plus the three join keys. -/
structure FactRow where
  title : Option String
  directorid : Nat
  genreid : Nat
  languageid : Nat
  deriving Repr, DecidableEq

/-- One normalized director-dimension row. -/
structure DirRow where
  director_id : Nat
  director : String
  deriving Repr, DecidableEq

/-- One normalized genre-dimension row. -/
structure GenRow where
  genreid : Nat
  genre : String
  deriving Repr, DecidableEq

/-- One normalized language-dimension row. -/
structure LangRow where
  languageid : Nat
  language : String
  deriving Repr, DecidableEq

/-- A row after the three left joins: the fact row plus the looked-up
descriptive fields, `none` where the dimension had no matching key. -/
structure Unified where
  fact : FactRow
  director : Option String
  genre : Option String
  language : Option String
  deriving Repr, DecidableEq

/-- Row after the first merge (fact ⟕ director, source line 77). -/
structure Unified12 where
  fact : FactRow
  director : Option String
  deriving Repr, DecidableEq

/-- Row after the second merge (⟕ genre, source line 78). -/
structure Unified123 where
  fact : FactRow
  director : Option String
  genre : Option String
  deriving Repr, DecidableEq

/-- Model of `pd.merge(left, right, how="left")` on a single equality key: left
rows in order; each left row is paired with every matching right row (in
right-table order), or with `none` when no right row matches. -/
def leftJoin {α β γ : Type} (leftKey : α → Nat) (rightKey : β → Nat)
    (combine : α → Option β → γ) (left : List α) (right : List β) : List γ :=
  left.flatMap fun a =>
    match right.filter (fun b => rightKey b == leftKey a) with
    | [] => [combine a none]
    | ms => ms.map fun b => combine a (some b)

/-- The merge cascade of `load_data` (source lines 77-79):
fact ⟕ director on `directorid = director_id`, then ⟕ genre on `genreid`,
then ⟕ language on `languageid`. -/
def load_data (facts : List FactRow) (dirs : List DirRow)
    (gens : List GenRow) (langs : List LangRow) : List Unified :=
  leftJoin (fun u : Unified123 => u.fact.languageid) (fun l => l.languageid)
    (fun u l => ⟨u.fact, u.director, u.genre, l.map (fun x => x.language)⟩)
    (leftJoin (fun u : Unified12 => u.fact.genreid) (fun g => g.genreid)
      (fun u g =>
        (⟨u.fact, u.director, g.map (fun x => x.genre)⟩ : Unified123))
      (leftJoin (fun f : FactRow => f.directorid) (fun d => d.director_id)
        (fun f d => (⟨f, d.map (fun x => x.director)⟩ : Unified12)) facts dirs)
      gens)
    langs

/-! ### Verdict cleaning (source lines 91-92)

`data["verdict"].astype(str).str.replace(":", "").str.strip()`.
`astype(str)` stringifies every cell, turning a missing value (`NaN`) into
the literal string `"nan"`; the result column therefore holds no missing
values at all. -/

/-- Pandas `astype(str)` on one cell: a missing value becomes `"nan"`. -/
def astypeStr : Option String → String
  | none => "nan"
  | some s => s

/-- The verdict-column cleaning applied to one cell. -/
def verdictClean (v : Option String) : Option String :=
  some (pyStrip (pyReplace ":" "" (astypeStr v)))

/-! ### The unified record set seen by the aggregation functions

The analyses read the title, the five monetary columns, the runtime, the
derived year/weekday, and the language and ott-platform lookups.  Numeric
columns have been coerced with `errors="coerce"` (source line 84), so each
holds a number or `none`. -/

/-- One unified record as consumed by the aggregation library. -/
structure Row where
  title : Option String
  budget_in_crores : Option ℚ
  first_day_collection_worldwide_in_crores : Option ℚ
  worldwide_collection_in_crores : Option ℚ
  overseas_collection_in_crores : Option ℚ
  india_gross_collection_in_crores : Option ℚ
  imdb_rating : Option ℚ
  runtime_mins : Option ℚ
  year : Option Int
  week_days : Option String
  language : Option String
  ott_platform : Option String
  deriving Repr, DecidableEq

/-- A record set together with its column-label schema; `ott_metrics`
branches on whether `"ott_platform"` is among the columns. -/
structure DataFrame where
  cols : List String
  rows : List Row
  deriving Repr, DecidableEq

/-- Pandas `Series.count`: number of non-null cells. -/
def seriesCount {α : Type} (xs : List (Option α)) : Nat :=
  xs.foldl (fun acc x => if x.isSome then acc + 1 else acc) 0

/-- Pandas `Series.sum` with the default `skipna=True`: missing cells are
skipped, the empty sum is `0`. -/
def seriesSum (xs : List (Option ℚ)) : ℚ :=
  xs.foldl (fun acc x => match x with | some v => acc + v | none => acc) 0

/-- The single output row of `totals` (source lines 103-112). -/
structure TotalsRow where
  total_films : Nat
  total_budget_crores : ℚ
  total_worldwide_crores : ℚ
  total_firstday_crores : ℚ
  total_overseas_crores : ℚ
  total_india_crores : ℚ
  deriving Repr, DecidableEq

/-- Source function `totals` (lines 103-112): one row of non-null title count and
the five skip-null monetary sums. -/
def totals (data : List Row) : List TotalsRow :=
  [{ total_films := seriesCount (data.map (fun r => r.title)),
     total_budget_crores := seriesSum (data.map (fun r => r.budget_in_crores)),
     total_worldwide_crores := seriesSum (data.map (fun r => r.worldwide_collection_in_crores)),
     total_firstday_crores := seriesSum (data.map (fun r => r.first_day_collection_worldwide_in_crores)),
     total_overseas_crores := seriesSum (data.map (fun r => r.overseas_collection_in_crores)),
     total_india_crores := seriesSum (data.map (fun r => r.india_gross_collection_in_crores)) }]

/-- Comparator of `sort_values(col, ascending=False)` on cells under the
default `na_position="last"`: larger values first, missing values after
every present value. -/
def descNullsLast (a b : Option ℚ) : Bool :=
  match a, b with
  | some x, some y => y ≤ x
  | some _, none => true
  | none, some _ => false
  | none, none => true

/-- Comparator of `sort_values(col, ascending=True)`: smaller values first,
and — still `na_position="last"` by default — missing values after every
present value. -/
def ascNullsLast (a b : Option ℚ) : Bool :=
  match a, b with
  | some x, some y => x ≤ y
  | some _, none => true
  | none, some _ => false
  | none, none => true

/-- The `metric → column` dictionary of `top_films` (source lines 116-121),
returning the column accessor. -/
def metricAccessor : String → Option (Row → Option ℚ)
  | "worldwide" => some (fun r => r.worldwide_collection_in_crores)
  | "india" => some (fun r => r.india_gross_collection_in_crores)
  | "overseas" => some (fun r => r.overseas_collection_in_crores)
  | "firstday" => some (fun r => r.first_day_collection_worldwide_in_crores)
  | _ => none

/-- Source function `top_films` (lines 115-125): select title plus the chosen
monetary column, sort descending (missing last), keep the first `n` rows.
An unrecognized metric raises `ValueError`.

`sort_values` is modelled by a comparison sort producing a sorted
permutation of its input (insertion sort here).  The source's default
sort algorithm (pandas `kind="quicksort"`) guarantees exactly that and
nothing about the relative order of ties. -/
def top_films (data : List Row) (metric : String) (n : Nat) :
    Except String (List (Option String × Option ℚ)) :=
  match metricAccessor (pyLower metric) with
  | none => Except.error ("Unsupported metric: " ++ metric)
  | some col =>
      Except.ok
        ((List.insertionSort (fun a b => descNullsLast a.2 b.2 = true)
            (data.map (fun r => (r.title, col r)))).take n)

/-- Pandas `groupby(key)[["title"]].count()` with the defaults
`sort=True, dropna=True`: rows whose key is missing form no group, group
keys are listed sorted and deduplicated, and each group reports its number
of non-null titles. -/
def groupCountBy {κ : Type} [DecidableEq κ] (key : Row → Option κ)
    (le : κ → κ → Bool) (data : List Row) : List (κ × Nat) :=
  (List.insertionSort (fun a b => le a b = true)
      ((data.filterMap key).dedup)).map
    (fun k => (k, (data.filter
      (fun r => decide (key r = some k) && r.title.isSome)).length))

/-- The two possible result tables of `counts_by`. -/
inductive CountsTable where
  | byYear : List (Int × Nat) → CountsTable
  | byWeekday : List (String × Nat) → CountsTable
  deriving Repr, DecidableEq

/-- The `ValueError` message of `counts_by` (source line 133). -/
def countsByMsg : String := "by must be \x27year\x27 or \x27weekday\x27"

/-- Source function `counts_by` (lines 128-133): group by the derived year or
weekday, count non-null titles, or raise for any other key. -/
def counts_by (data : List Row) (groupKey : String) : Except String CountsTable :=
  if groupKey = "year" then
    Except.ok (CountsTable.byYear
      (groupCountBy (fun r => r.year) (fun a b => decide (a ≤ b)) data))
  else if groupKey = "weekday" then
    Except.ok (CountsTable.byWeekday
      (groupCountBy (fun r => r.week_days) (fun a b => decide (a ≤ b)) data))
  else
    Except.error countsByMsg

/-- The pair of tables returned by `runtime_extremes`. -/
structure RuntimeTables where
  longest : List (Option String × Option ℚ)
  shortest : List (Option String × Option ℚ)
  deriving Repr, DecidableEq

/-- Source function `runtime_extremes` (lines 173-176): title+runtime sorted
descending (head 5) and ascending (head 5); both sorts keep the pandas
default `na_position="last"`. -/
def runtime_extremes (data : List Row) : RuntimeTables :=
  let cols := data.map (fun r => (r.title, r.runtime_mins))
  { longest :=
      (List.insertionSort (fun a b => descNullsLast a.2 b.2 = true) cols).take 5,
    shortest :=
      (List.insertionSort (fun a b => ascNullsLast a.2 b.2 = true) cols).take 5 }

/-- Source function `not_overseas` (lines 184-185): titles of the rows whose
overseas collection, after `fillna(0)`, equals `0`. -/
def not_overseas (data : List Row) : List (Option String) :=
  (data.filter (fun r => r.overseas_collection_in_crores.getD 0 == 0)).map
    (fun r => r.title)

/-- Lexicographic comparator for the `(language, ott_platform)` group
keys. -/
def pairLe (a b : String × String) : Bool :=
  decide (a.1 < b.1) || (a.1 == b.1 && decide (a.2 ≤ b.2))

/-- Source function `ott_metrics` (lines 192-199): two empty tables when the
`ott_platform` column is absent from the schema; otherwise title counts
grouped by ott platform and by (language, ott platform). -/
def ott_metrics (df : DataFrame) :
    List (String × Nat) × List ((String × String) × Nat) :=
  if "ott_platform" ∈ df.cols then
    (groupCountBy (fun r => r.ott_platform) (fun a b => decide (a ≤ b)) df.rows,
     groupCountBy
       (fun r => match r.language, r.ott_platform with
         | some l, some o => some (l, o)
         | _, _ => none)
       pairLe df.rows)
  else
    ([], [])

/-- Whether `needle` occurs as a contiguous substring of `hay`.  Used to
reason about which words an error message mentions. -/
def occursIn (needle : List Char) : List Char → Bool
  | [] => needle.isEmpty
  | c :: cs => needle.isPrefixOf (c :: cs) || occursIn needle cs

/-- A unified record with every cell missing; concrete test records are
built from it by structure update. -/
def baseRow : Row :=
  { title := none, budget_in_crores := none,
    first_day_collection_worldwide_in_crores := none,
    worldwide_collection_in_crores := none,
    overseas_collection_in_crores := none,
    india_gross_collection_in_crores := none, imdb_rating := none,
    runtime_mins := none, year := none, week_days := none,
    language := none, ott_platform := none }

/-! ### Helper lemmas -/

theorem asString_toList (s : String) : s.toList.asString = s := rfl

theorem dropWhile_eq_self_of {p : Char → Bool} {l : List Char}
    (h : ∀ c ∈ l, p c = false) : l.dropWhile p = l := by
  cases l with
  | nil => rfl
  | cons c cs => simp [List.dropWhile, h c (by simp)]

theorem pyStripChars_eq_self {l : List Char}
    (h : ∀ c ∈ l, c.isWhitespace = false) : pyStripChars l = l := by
  unfold pyStripChars
  rw [dropWhile_eq_self_of h, dropWhile_eq_self_of, List.reverse_reverse]
  intro c hc
  exact h c (by simpa using hc)

theorem map_toLower_eq_self {l : List Char}
    (h : ∀ c ∈ l, c.toLower = c) : l.map Char.toLower = l := by
  induction l with
  | nil => rfl
  | cons c cs ih =>
    simp only [List.map_cons, h c (by simp)]
    rw [ih (fun x hx => h x (by simp [hx]))]

theorem replaceAux_not_head {a : Char} {as rep : List Char} :
    ∀ (fuel : Nat) (l : List Char), a ∉ l →
      replaceAux (a :: as) rep fuel l = l := by
  intro fuel
  induction fuel with
  | zero => intro l _; rfl
  | succ n ih =>
    intro l hl
    cases l with
    | nil => rfl
    | cons c cs =>
      have hac : (a == c) = false := by
        simp only [beq_eq_false_iff_ne, ne_eq]
        intro h
        exact hl (h ▸ List.mem_cons_self a cs)
      have hnp : (a :: as).isPrefixOf (c :: cs) = false := by
        simp [List.isPrefixOf, hac]
      simp only [replaceAux, hnp, Bool.false_eq_true, false_and, if_false]
      rw [ih cs (fun h => hl (List.mem_cons_of_mem c h))]

theorem replaceList_not_head {a : Char} {as rep l : List Char}
    (h : a ∉ l) : replaceList (a :: as) rep l = l :=
  replaceAux_not_head l.length l h

theorem pyReplace_not_head {old new s : String} {a : Char} {as : List Char}
    (hold : old.toList = a :: as) (h : a ∉ s.toList) :
    pyReplace old new s = s := by
  unfold pyReplace
  rw [hold, replaceList_not_head h, asString_toList]

theorem replaceAux_colon :
    ∀ (fuel : Nat) (l : List Char), l.length ≤ fuel →
      replaceAux [':'] [] fuel l = l.filter (fun c => c != ':') := by
  intro fuel
  induction fuel with
  | zero =>
    intro l hl
    rw [List.length_eq_zero.mp (Nat.le_zero.mp hl)]
    rfl
  | succ n ih =>
    intro l hl
    cases l with
    | nil => rfl
    | cons c cs =>
      by_cases hc : c = ':'
      · subst hc
        rw [replaceAux, if_pos ⟨by simp [List.isPrefixOf], by simp⟩]
        have hdrop : cs.drop (List.length [':'] - 1) = cs := by simp
        rw [hdrop, List.nil_append, ih cs (by simpa using Nat.le_of_succ_le_succ hl)]
        have : ((':' : Char) != ':') = false := by simp
        rw [List.filter_cons, this]
        simp
      · have hcc : ((':' : Char) == c) = false :=
          beq_eq_false_iff_ne.mpr (fun h => hc h.symm)
        have hp : ([':'] : List Char).isPrefixOf (c :: cs) = false := by
          simp [List.isPrefixOf, hcc]
        rw [replaceAux, if_neg (fun hcontra => by rw [hp] at hcontra; exact absurd hcontra.1 (by simp))]
        rw [ih cs (by simpa using Nat.le_of_succ_le_succ hl)]
        have : (c != ':') = true := by simp [hc]
        rw [List.filter_cons, this]
        simp

theorem replaceList_colon (l : List Char) :
    replaceList [':'] [] l = l.filter (fun c => c != ':') :=
  replaceAux_colon l.length l le_rfl

/-! ### C10: the field normalizer -/

/-- Claim C10. `snake` is total and deterministic, labels made only of
unrecognized characters (lowercase-fixed, non-whitespace, outside the
replaced set) pass through unchanged, and the underscore collapse is a
single pass: the label `"a   b"`, which contains three consecutive spaces,
normalizes to `"a__b"`, which still contains two consecutive
underscores. -/
theorem snake_total_single_pass :
    (∀ s : String,
      (∀ c ∈ s.toList, c.toLower = c ∧ c.isWhitespace = false ∧
        c ∉ ['/', ' ', '(', ')', '-', '+', '_']) → snake s = s) ∧
    snake "a   b" = "a__b" ∧
    (∃ pre post : List Char, "a__b".toList = pre ++ ['_', '_'] ++ post) := by
  refine ⟨?_, by decide, ⟨['a'], ['b'], by decide⟩⟩
  intro s h
  have hnotMem : ∀ a : Char, a ∈ ['/', ' ', '(', ')', '-', '+', '_'] →
      a ∉ s.toList := by
    intro a ha hmem
    exact (h a hmem).2.2 ha
  have h1 : pyStrip s = s := by
    unfold pyStrip
    rw [pyStripChars_eq_self (fun c hc => (h c hc).2.1), asString_toList]
  have h2 : pyLower s = s := by
    unfold pyLower
    rw [map_toLower_eq_self (fun c hc => (h c hc).1), asString_toList]
  unfold snake
  rw [h1, h2]
  rw [pyReplace_not_head (show ("/" : String).toList = ['/'] from rfl)
    (hnotMem '/' (by decide))]
  rw [pyReplace_not_head (show (" " : String).toList = [' '] from rfl)
    (hnotMem ' ' (by decide))]
  rw [pyReplace_not_head (show ("(" : String).toList = ['('] from rfl)
    (hnotMem '(' (by decide))]
  rw [pyReplace_not_head (show (")" : String).toList = [')'] from rfl)
    (hnotMem ')' (by decide))]
  rw [pyReplace_not_head (show ("-" : String).toList = ['-'] from rfl)
    (hnotMem '-' (by decide))]
  rw [pyReplace_not_head (show ("+" : String).toList = ['+'] from rfl)
    (hnotMem '+' (by decide))]
  rw [pyReplace_not_head (show ("__" : String).toList = ['_', '_'] from rfl)
    (hnotMem '_' (by decide))]

/-- Claim C10 witness. A concrete all-lowercase label passes through
unchanged. -/
theorem snake_total_single_pass_witness :
    (∀ c ∈ "abc".toList, c.toLower = c ∧ c.isWhitespace = false ∧
      c ∉ ['/', ' ', '(', ')', '-', '+', '_']) ∧ snake "abc" = "abc" :=
  ⟨by decide, snake_total_single_pass.1 "abc" (by decide)⟩

/-! ### C7: verdict cleaning -/

/-- Claim C7 counterexample. A missing verdict does not stay missing:
`astype(str)` stringifies the missing value, so the cleaned cell is the
literal string `"nan"`. -/
theorem verdictClean_none_is_nan :
    verdictClean none = some "nan" ∧ verdictClean none ≠ none := by
  constructor
  · decide
  · decide

/-- Claim C7 amended. For a string source cell the cleaned verdict is the
source with every colon removed and surrounding whitespace trimmed; a
missing source cell becomes the string `"nan"` (never stays missing), and
the cleaned column holds no missing value at all. -/
theorem verdictClean_characterization :
    (∀ s : String, verdictClean (some s) =
      some (pyStrip ((s.toList.filter (fun c => c != ':')).asString))) ∧
    verdictClean none = some "nan" ∧
    (∀ v : Option String, (verdictClean v).isSome = true) := by
  refine ⟨?_, by decide, ?_⟩
  · intro s
    simp only [verdictClean, astypeStr, pyReplace]
    rw [show (":" : String).toList = [':'] from rfl,
        show ("" : String).toList = [] from rfl, replaceList_colon]
  · intro v
    unfold verdictClean
    rfl

/-! ### C5: not_overseas -/

/-- Claim C5. `not_overseas` returns exactly the titles of the records whose
overseas collection is missing or zero. -/
theorem not_overseas_titles_iff (data : List Row) (t : Option String) :
    t ∈ not_overseas data ↔
      ∃ r ∈ data, r.title = t ∧
        (r.overseas_collection_in_crores = none ∨
         r.overseas_collection_in_crores = some 0) := by
  unfold not_overseas
  rw [List.mem_map]
  constructor
  · rintro ⟨r, hr, rfl⟩
    rw [List.mem_filter] at hr
    refine ⟨r, hr.1, rfl, ?_⟩
    have := hr.2
    cases hov : r.overseas_collection_in_crores with
    | none => exact Or.inl rfl
    | some x =>
      right
      rw [hov] at this
      simp only [Option.getD_some, beq_iff_eq] at this
      rw [this]
  · rintro ⟨r, hr, rfl, hov⟩
    refine ⟨r, List.mem_filter.mpr ⟨hr, ?_⟩, rfl⟩
    rcases hov with h | h <;> simp [h]

/-! ### C4: totals -/

theorem seriesCount_eq {α : Type} (xs : List (Option α)) :
    seriesCount xs = (xs.filterMap id).length := by
  have aux : ∀ (ys : List (Option α)) (acc : Nat),
      ys.foldl (fun acc x => if x.isSome then acc + 1 else acc) acc =
        acc + (ys.filterMap id).length := by
    intro ys
    induction ys with
    | nil => intro acc; simp
    | cons y t ih =>
      intro acc
      cases y <;> simp [List.foldl_cons, ih] <;> omega
  simpa using aux xs 0

theorem seriesSum_eq (xs : List (Option ℚ)) :
    seriesSum xs = (xs.filterMap id).sum := by
  have aux : ∀ (ys : List (Option ℚ)) (acc : ℚ),
      ys.foldl (fun acc x => match x with | some v => acc + v | none => acc) acc =
        acc + (ys.filterMap id).sum := by
    intro ys
    induction ys with
    | nil => intro acc; simp
    | cons y t ih =>
      intro acc
      cases y <;> simp [List.foldl_cons, ih] <;> ring
  simpa using aux xs 0

theorem length_filterMap_eq {α β : Type} (f : α → Option β) (l : List α) :
    (l.filterMap f).length = (l.filter (fun a => (f a).isSome)).length := by
  induction l with
  | nil => rfl
  | cons a t ih =>
    cases h : f a <;>
      simp [List.filterMap_cons, List.filter_cons, h, ih]

/-- Claim C4. `totals` returns exactly one row; its film count is the number
of records with a non-missing title, and each of the five monetary totals
is the sum of the non-missing values of its column. -/
theorem totals_one_row_counts_and_sums (data : List Row) :
    (totals data).length = 1 ∧
    ∀ t ∈ totals data,
      t.total_films = (data.filter (fun r => r.title.isSome)).length ∧
      t.total_budget_crores = (data.filterMap (fun r => r.budget_in_crores)).sum ∧
      t.total_worldwide_crores = (data.filterMap (fun r => r.worldwide_collection_in_crores)).sum ∧
      t.total_firstday_crores = (data.filterMap (fun r => r.first_day_collection_worldwide_in_crores)).sum ∧
      t.total_overseas_crores = (data.filterMap (fun r => r.overseas_collection_in_crores)).sum ∧
      t.total_india_crores = (data.filterMap (fun r => r.india_gross_collection_in_crores)).sum := by
  refine ⟨rfl, ?_⟩
  intro t ht
  have hsum : ∀ f : Row → Option ℚ,
      seriesSum (data.map f) = (data.filterMap f).sum := by
    intro f
    rw [seriesSum_eq, List.filterMap_map]
    rfl
  have hcount : seriesCount (data.map (fun r => r.title)) =
      (data.filter (fun r => r.title.isSome)).length := by
    rw [seriesCount_eq, List.filterMap_map]
    have : (data.filterMap (id ∘ fun r => r.title)).length =
        (data.filterMap (fun r => r.title)).length := rfl
    rw [this, length_filterMap_eq]
  rcases List.mem_singleton.mp ht with rfl
  exact ⟨hcount, hsum _, hsum _, hsum _, hsum _, hsum _⟩

/-- Claim C4 witness. The theorem applied to a one-row record set. -/
theorem totals_one_row_counts_and_sums_witness :
    (totals [{ baseRow with title := some "F", budget_in_crores := some 5 }]).length = 1 ∧
    ∀ t ∈ totals [{ baseRow with title := some "F", budget_in_crores := some 5 }],
      t.total_films = ([{ baseRow with title := some "F", budget_in_crores := some 5 }].filter
        (fun r => r.title.isSome)).length :=
  ⟨(totals_one_row_counts_and_sums _).1,
   fun t ht => ((totals_one_row_counts_and_sums _).2 t ht).1⟩

/-! ### Sorting helpers for C2 and C6 -/

theorem descNullsLast_trans (a b c : Option ℚ)
    (h1 : descNullsLast a b = true) (h2 : descNullsLast b c = true) :
    descNullsLast a c = true := by
  cases a <;> cases b <;> cases c <;> simp_all [descNullsLast] <;> linarith

theorem descNullsLast_total (a b : Option ℚ) :
    (descNullsLast a b || descNullsLast b a) = true := by
  cases a <;> cases b <;> simp [descNullsLast]
  exact le_total _ _

theorem ascNullsLast_trans (a b c : Option ℚ)
    (h1 : ascNullsLast a b = true) (h2 : ascNullsLast b c = true) :
    ascNullsLast a c = true := by
  cases a <;> cases b <;> cases c <;> simp_all [ascNullsLast] <;> linarith

theorem ascNullsLast_total (a b : Option ℚ) :
    (ascNullsLast a b || ascNullsLast b a) = true := by
  cases a <;> cases b <;> simp [ascNullsLast]
  exact le_total _ _

theorem descNullsLast_imp {a b : Option ℚ} (h : descNullsLast a b = true) :
    (a = none → b = none) ∧ ∀ x y, a = some x → b = some y → y ≤ x := by
  cases a <;> cases b <;> simp_all [descNullsLast]

theorem ascNullsLast_imp {a b : Option ℚ} (h : ascNullsLast a b = true) :
    (a = none → b = none) ∧ ∀ x y, a = some x → b = some y → x ≤ y := by
  cases a <;> cases b <;> simp_all [ascNullsLast]

/-- Properties of `sort then take`: at most `n` rows, pairwise ordered by
the comparator, every row drawn from the input. -/
theorem sortTake_props (cmp : Option ℚ → Option ℚ → Bool)
    (htrans : ∀ a b c, cmp a b = true → cmp b c = true → cmp a c = true)
    (htotal : ∀ a b, (cmp a b || cmp b a) = true)
    (l : List (Option String × Option ℚ)) (n : Nat) :
    ((List.insertionSort (fun a b => cmp a.2 b.2 = true) l).take n).length ≤ n ∧
    ((List.insertionSort (fun a b => cmp a.2 b.2 = true) l).take n).Pairwise
      (fun a b => cmp a.2 b.2 = true) ∧
    ∀ p ∈ (List.insertionSort (fun a b => cmp a.2 b.2 = true) l).take n,
      p ∈ l := by
  haveI : IsTotal (Option String × Option ℚ) (fun a b => cmp a.2 b.2 = true) :=
    ⟨fun a b => by
      rcases Bool.or_eq_true_iff.mp (htotal a.2 b.2) with h | h
      · exact Or.inl h
      · exact Or.inr h⟩
  haveI : IsTrans (Option String × Option ℚ) (fun a b => cmp a.2 b.2 = true) :=
    ⟨fun a b c h1 h2 => htrans a.2 b.2 c.2 h1 h2⟩
  refine ⟨List.length_take_le n _, ?_, ?_⟩
  · have hs := List.sorted_insertionSort
      (fun a b : Option String × Option ℚ => cmp a.2 b.2 = true) l
    exact List.Pairwise.sublist (List.take_sublist n _) hs
  · intro p hp
    exact (List.mem_insertionSort _).mp (List.mem_of_mem_take hp)

/-- The head of a sorted list split off by `take`/`drop`: together the two
parts are a permutation of the input, and every kept element is ordered
before every dropped element — the extremal property of `sort then
take`. -/
theorem sortTake_dominates_rest (cmp : Option ℚ → Option ℚ → Bool)
    (htrans : ∀ a b c, cmp a b = true → cmp b c = true → cmp a c = true)
    (htotal : ∀ a b, (cmp a b || cmp b a) = true)
    (l : List (Option String × Option ℚ)) (n : Nat) :
    ((List.insertionSort (fun a b => cmp a.2 b.2 = true) l).take n ++
      (List.insertionSort (fun a b => cmp a.2 b.2 = true) l).drop n).Perm l ∧
    ∀ p ∈ (List.insertionSort (fun a b => cmp a.2 b.2 = true) l).take n,
      ∀ q ∈ (List.insertionSort (fun a b => cmp a.2 b.2 = true) l).drop n,
        cmp p.2 q.2 = true := by
  haveI : IsTotal (Option String × Option ℚ) (fun a b => cmp a.2 b.2 = true) :=
    ⟨fun a b => by
      rcases Bool.or_eq_true_iff.mp (htotal a.2 b.2) with h | h
      · exact Or.inl h
      · exact Or.inr h⟩
  haveI : IsTrans (Option String × Option ℚ) (fun a b => cmp a.2 b.2 = true) :=
    ⟨fun a b c h1 h2 => htrans a.2 b.2 c.2 h1 h2⟩
  constructor
  · rw [List.take_append_drop]
    exact List.perm_insertionSort _ l
  · have hs := List.sorted_insertionSort
      (fun a b : Option String × Option ℚ => cmp a.2 b.2 = true) l
    have hsplit : List.insertionSort (fun a b => cmp a.2 b.2 = true) l =
        (List.insertionSort (fun a b => cmp a.2 b.2 = true) l).take n ++
        (List.insertionSort (fun a b => cmp a.2 b.2 = true) l).drop n :=
      (List.take_append_drop n _).symm
    rw [hsplit] at hs
    exact fun p hp q hq => (List.pairwise_append.mp hs).2.2 p hp q hq

/-! ### C2: top_films -/

/-- Claim C2. For every valid metric, `top_films` succeeds and returns at
most `n` rows of title plus the chosen monetary column, pairwise
non-increasing in that column with every missing value after every
present value. -/
theorem top_films_sorted_desc_nulls_last (data : List Row) (metric : String)
    (n : Nat)
    (h : metric = "worldwide" ∨ metric = "india" ∨ metric = "overseas" ∨
      metric = "firstday") :
    ∃ col : Row → Option ℚ, ∃ l : List (Option String × Option ℚ),
      metricAccessor metric = some col ∧
      top_films data metric n = Except.ok l ∧
      l.length ≤ n ∧
      l.Pairwise (fun a b => (a.2 = none → b.2 = none) ∧
        ∀ x y, a.2 = some x → b.2 = some y → y ≤ x) ∧
      ∀ p ∈ l, ∃ r ∈ data, p = (r.title, col r) := by
  have main : ∀ col : Row → Option ℚ,
      ((List.insertionSort (fun a b => descNullsLast a.2 b.2 = true)
          (data.map (fun r => (r.title, col r)))).take n).length ≤ n ∧
      ((List.insertionSort (fun a b => descNullsLast a.2 b.2 = true)
          (data.map (fun r => (r.title, col r)))).take n).Pairwise
        (fun a b => (a.2 = none → b.2 = none) ∧
          ∀ x y, a.2 = some x → b.2 = some y → y ≤ x) ∧
      ∀ p ∈ (List.insertionSort (fun a b => descNullsLast a.2 b.2 = true)
          (data.map (fun r => (r.title, col r)))).take n,
        ∃ r ∈ data, p = (r.title, col r) := by
    intro col
    obtain ⟨h1, h2, h3⟩ := sortTake_props descNullsLast descNullsLast_trans
      descNullsLast_total (data.map fun r => (r.title, col r)) n
    refine ⟨h1, h2.imp (fun hab => descNullsLast_imp hab), ?_⟩
    intro p hp
    obtain ⟨r, hr, hpr⟩ := List.mem_map.mp (h3 p hp)
    exact ⟨r, hr, hpr.symm⟩
  rcases h with rfl | rfl | rfl | rfl <;>
    exact ⟨_, _, rfl, rfl, main _⟩

/-- Claim C2 witness. The theorem applied to a one-row record set with the
`worldwide` metric. -/
theorem top_films_sorted_desc_nulls_last_witness :
    ∃ col : Row → Option ℚ, ∃ l : List (Option String × Option ℚ),
      metricAccessor "worldwide" = some col ∧
      top_films [baseRow] "worldwide" 10 = Except.ok l ∧
      l.length ≤ 10 ∧
      l.Pairwise (fun a b => (a.2 = none → b.2 = none) ∧
        ∀ x y, a.2 = some x → b.2 = some y → y ≤ x) ∧
      ∀ p ∈ l, ∃ r ∈ [baseRow], p = (r.title, col r) :=
  top_films_sorted_desc_nulls_last [baseRow] "worldwide" 10 (Or.inl rfl)

/-! ### C6: runtime_extremes -/

/-- Claim C6 counterexample. In the "shortest" view missing runtimes do not
sort first: with one 100-minute film and one missing runtime, the missing
row comes second.  (`sort_values(ascending=True)` keeps the default
`na_position="last"`.) -/
theorem runtime_extremes_shortest_nulls_not_first :
    (runtime_extremes
        [{ baseRow with title := some "A", runtime_mins := some 100 },
         { baseRow with title := some "B" }]).shortest =
      [(some "A", some 100), (some "B", none)] ∧
    ¬ (runtime_extremes
        [{ baseRow with title := some "A", runtime_mins := some 100 },
         { baseRow with title := some "B" }]).shortest.Pairwise
        (fun a b => b.2 = none → a.2 = none) := by
  constructor
  · decide
  · intro hpair
    have hmem : ((runtime_extremes
        [{ baseRow with title := some "A", runtime_mins := some 100 },
         { baseRow with title := some "B" }]).shortest) =
        [(some "A", some 100), (some "B", none)] := by decide
    rw [hmem] at hpair
    have h2 := (List.pairwise_cons.mp hpair).1
      ((some "B", none) : Option String × Option ℚ) (by simp)
    have h3 := h2 rfl
    simp at h3

/-- Claim C6 amended. `runtime_extremes` returns the five longest and the
five shortest runtimes as title+runtime tables — each view holds exactly
`min 5 n` rows of the `n`-row record set, is sorted (non-increasing
resp. non-decreasing), and together with its omitted rows is a permutation
of all the record set's title+runtime pairs, with every kept row
dominating every omitted row in the view's order.  In **both** views every
missing runtime sorts after every present one (pandas' default
`na_position="last"` applies to ascending sorts as well), so nulls do not
sort first in the "shortest" view. -/
theorem runtime_extremes_nulls_last_both (data : List Row) :
    (runtime_extremes data).longest.length = min 5 data.length ∧
    (runtime_extremes data).shortest.length = min 5 data.length ∧
    (runtime_extremes data).longest.Pairwise
      (fun a b => (a.2 = none → b.2 = none) ∧
        ∀ x y, a.2 = some x → b.2 = some y → y ≤ x) ∧
    (runtime_extremes data).shortest.Pairwise
      (fun a b => (a.2 = none → b.2 = none) ∧
        ∀ x y, a.2 = some x → b.2 = some y → x ≤ y) ∧
    (∀ p ∈ (runtime_extremes data).longest,
      ∃ r ∈ data, p = (r.title, r.runtime_mins)) ∧
    (∀ p ∈ (runtime_extremes data).shortest,
      ∃ r ∈ data, p = (r.title, r.runtime_mins)) ∧
    (∃ rest, ((runtime_extremes data).longest ++ rest).Perm
        (data.map (fun r => (r.title, r.runtime_mins))) ∧
      ∀ p ∈ (runtime_extremes data).longest, ∀ q ∈ rest,
        (p.2 = none → q.2 = none) ∧
        ∀ x y, p.2 = some x → q.2 = some y → y ≤ x) ∧
    (∃ rest, ((runtime_extremes data).shortest ++ rest).Perm
        (data.map (fun r => (r.title, r.runtime_mins))) ∧
      ∀ p ∈ (runtime_extremes data).shortest, ∀ q ∈ rest,
        (p.2 = none → q.2 = none) ∧
        ∀ x y, p.2 = some x → q.2 = some y → x ≤ y) := by
  obtain ⟨hd1, hd2, hd3⟩ := sortTake_props descNullsLast descNullsLast_trans
    descNullsLast_total (data.map fun r => (r.title, r.runtime_mins)) 5
  obtain ⟨ha1, ha2, ha3⟩ := sortTake_props ascNullsLast ascNullsLast_trans
    ascNullsLast_total (data.map fun r => (r.title, r.runtime_mins)) 5
  obtain ⟨hdperm, hddom⟩ := sortTake_dominates_rest descNullsLast
    descNullsLast_trans descNullsLast_total
    (data.map fun r => (r.title, r.runtime_mins)) 5
  obtain ⟨haperm, hadom⟩ := sortTake_dominates_rest ascNullsLast
    ascNullsLast_trans ascNullsLast_total
    (data.map fun r => (r.title, r.runtime_mins)) 5
  have hlen : ∀ cmp : Option ℚ → Option ℚ → Bool,
      ((List.insertionSort (fun a b => cmp a.2 b.2 = true)
        (data.map fun r => (r.title, r.runtime_mins))).take 5).length =
      min 5 data.length := by
    intro cmp
    have hperm := (List.perm_insertionSort
      (fun a b : Option String × Option ℚ => cmp a.2 b.2 = true)
      (data.map fun r => (r.title, r.runtime_mins))).length_eq
    rw [List.length_take, hperm, List.length_map]
  refine ⟨hlen descNullsLast, hlen ascNullsLast,
    hd2.imp (fun hab => descNullsLast_imp hab),
    ha2.imp (fun hab => ascNullsLast_imp hab), ?_, ?_, ?_, ?_⟩
  · intro p hp
    obtain ⟨r, hr, hpr⟩ := List.mem_map.mp (hd3 p hp)
    exact ⟨r, hr, hpr.symm⟩
  · intro p hp
    obtain ⟨r, hr, hpr⟩ := List.mem_map.mp (ha3 p hp)
    exact ⟨r, hr, hpr.symm⟩
  · exact ⟨_, hdperm, fun p hp q hq => descNullsLast_imp (hddom p hp q hq)⟩
  · exact ⟨_, haperm, fun p hp q hq => ascNullsLast_imp (hadom p hp q hq)⟩

/-- Claim C6 witness. The amended theorem applied to a two-row record
set. -/
theorem runtime_extremes_nulls_last_both_witness :
    (runtime_extremes [{ baseRow with title := some "A", runtime_mins := some 100 },
      { baseRow with title := some "B" }]).longest.length =
      min 5 ([{ baseRow with title := some "A", runtime_mins := some 100 },
        { baseRow with title := some "B" }] : List Row).length ∧
    (runtime_extremes [{ baseRow with title := some "A", runtime_mins := some 100 },
      { baseRow with title := some "B" }]).shortest.length =
      min 5 ([{ baseRow with title := some "A", runtime_mins := some 100 },
        { baseRow with title := some "B" }] : List Row).length :=
  ⟨(runtime_extremes_nulls_last_both _).1,
   (runtime_extremes_nulls_last_both _).2.1⟩

/-! ### Substring helpers for C8 -/

theorem isPrefixOf_append_iff :
    ∀ (p l : List Char), p.isPrefixOf l = true ↔ ∃ t, l = p ++ t := by
  intro p
  induction p with
  | nil =>
    intro l
    constructor
    · intro _
      exact ⟨l, rfl⟩
    · intro _
      cases l <;> rfl
  | cons a as ih =>
    intro l
    cases l with
    | nil =>
      constructor
      · intro h
        exact absurd h (by simp [List.isPrefixOf])
      · rintro ⟨t, ht⟩
        exact absurd ht (by simp)
    | cons b bs =>
      constructor
      · intro h
        rw [show ((a :: as).isPrefixOf (b :: bs)) =
              ((a == b) && as.isPrefixOf bs) from rfl,
            Bool.and_eq_true] at h
        obtain ⟨t, rfl⟩ := (ih bs).mp h.2
        obtain rfl : a = b := beq_iff_eq.mp h.1
        exact ⟨t, rfl⟩
      · rintro ⟨t, ht⟩
        injection ht with h1 h2
        rw [show ((a :: as).isPrefixOf (b :: bs)) =
              ((a == b) && as.isPrefixOf bs) from rfl,
            Bool.and_eq_true]
        exact ⟨by simp [h1], (ih bs).mpr ⟨t, h2⟩⟩

theorem occursIn_iff (needle : List Char) :
    ∀ hay : List Char, occursIn needle hay = true ↔
      ∃ pre post, hay = pre ++ needle ++ post := by
  intro hay
  induction hay with
  | nil =>
    rw [show occursIn needle [] = needle.isEmpty from rfl]
    constructor
    · intro h
      have hn : needle = [] := by
        cases needle with
        | nil => rfl
        | cons x xs => exact absurd h (by simp [List.isEmpty])
      exact ⟨[], [], by simp [hn]⟩
    · rintro ⟨pre, post, h⟩
      have h' := h.symm
      rw [List.append_assoc, List.append_eq_nil] at h'
      rw [List.append_eq_nil] at h'
      simp [h'.2.1, List.isEmpty]
  | cons c cs ih =>
    rw [show occursIn needle (c :: cs) =
          (needle.isPrefixOf (c :: cs) || occursIn needle cs) from rfl,
        Bool.or_eq_true, isPrefixOf_append_iff, ih]
    constructor
    · rintro (⟨t, ht⟩ | ⟨pre, post, hp⟩)
      · exact ⟨[], t, by simp [ht]⟩
      · exact ⟨c :: pre, post, by simp [hp]⟩
    · rintro ⟨pre, post, hp⟩
      cases pre with
      | nil => exact Or.inl ⟨post, by simpa using hp⟩
      | cons x xs =>
        injection hp with h1 h2
        exact Or.inr ⟨xs, post, h2⟩

/-! ### C8: counts_by argument error -/

/-- Claim C8 counterexample. The `counts_by` failure message is a fixed
string: for the invalid key `"month"` it raises, but the message does not
contain the invalid value anywhere. -/
theorem counts_by_message_omits_invalid_value :
    counts_by [] "month" = Except.error countsByMsg ∧
    ¬ ∃ pre post, countsByMsg.toList = pre ++ "month".toList ++ post := by
  constructor
  · rfl
  · intro hocc
    exact absurd ((occursIn_iff _ _).mpr hocc) (by decide)

/-- Claim C8 amended. For every grouping key outside `{year, weekday}`,
`counts_by` fails hard with a message that names the set of valid values
(both `"year"` and `"weekday"` occur in it) — but not the invalid value
that was passed (the message is a constant). -/
theorem counts_by_invalid_key_error (data : List Row) (groupKey : String)
    (h1 : groupKey ≠ "year") (h2 : groupKey ≠ "weekday") :
    counts_by data groupKey = Except.error countsByMsg ∧
    (∃ pre post, countsByMsg.toList = pre ++ "year".toList ++ post) ∧
    (∃ pre post, countsByMsg.toList = pre ++ "weekday".toList ++ post) := by
  refine ⟨?_, ?_, ?_⟩
  · simp [counts_by, h1, h2]
  · exact (occursIn_iff _ _).mp (by decide)
  · exact (occursIn_iff _ _).mp (by decide)

/-- Claim C8 witness. The invalid key `"month"` on an empty record set. -/
theorem counts_by_invalid_key_error_witness :
    counts_by [] "month" = Except.error countsByMsg ∧
    (∃ pre post, countsByMsg.toList = pre ++ "year".toList ++ post) ∧
    (∃ pre post, countsByMsg.toList = pre ++ "weekday".toList ++ post) :=
  counts_by_invalid_key_error [] "month" (by decide) (by decide)

/-! ### C9: ott_metrics -/

theorem groupCountBy_mem {κ : Type} [DecidableEq κ] (key : Row → Option κ)
    (le : κ → κ → Bool) (data : List Row) (k : κ) (c : Nat) :
    (k, c) ∈ groupCountBy key le data ↔
      (∃ r ∈ data, key r = some k) ∧
      c = (data.filter
        (fun r => decide (key r = some k) && r.title.isSome)).length := by
  unfold groupCountBy
  rw [List.mem_map]
  constructor
  · rintro ⟨k', hk', hpair⟩
    have h1 : k' = k := congrArg Prod.fst hpair
    subst h1
    refine ⟨?_, (congrArg Prod.snd hpair).symm⟩
    rw [List.mem_insertionSort, List.mem_dedup, List.mem_filterMap] at hk'
    exact hk'
  · rintro ⟨⟨r, hr, hkey⟩, rfl⟩
    refine ⟨k, ?_, rfl⟩
    rw [List.mem_insertionSort, List.mem_dedup, List.mem_filterMap]
    exact ⟨r, hr, hkey⟩

theorem pairKey_eq_some (r : Row) (l o : String) :
    (match r.language, r.ott_platform with
      | some a, some b => some (a, b)
      | _, _ => none) = some (l, o) ↔
    r.language = some l ∧ r.ott_platform = some o := by
  rcases hL : r.language with _ | a <;>
    rcases hO : r.ott_platform with _ | b <;>
      simp [hL, hO, Prod.ext_iff]

/-- Claim C9. `ott_metrics` returns two empty tables (and no error) when the
`ott_platform` column is absent from the schema; when it is present, the
first table associates each ott platform occurring in the records with its
non-null-title count, and the second does the same for each
(language, ott platform) pair. -/
theorem ott_metrics_schema_branch (df : DataFrame) :
    ("ott_platform" ∉ df.cols → ott_metrics df = ([], [])) ∧
    ("ott_platform" ∈ df.cols →
      (∀ k c, (k, c) ∈ (ott_metrics df).1 ↔
        (∃ r ∈ df.rows, r.ott_platform = some k) ∧
        c = (df.rows.filter (fun r =>
              decide (r.ott_platform = some k) && r.title.isSome)).length) ∧
      (∀ l o c, ((l, o), c) ∈ (ott_metrics df).2 ↔
        (∃ r ∈ df.rows, r.language = some l ∧ r.ott_platform = some o) ∧
        c = (df.rows.filter (fun r =>
              decide (r.language = some l) && decide (r.ott_platform = some o) &&
              r.title.isSome)).length)) := by
  constructor
  · intro h
    unfold ott_metrics
    rw [if_neg h]
  · intro h
    have hfst : (ott_metrics df).1 =
        groupCountBy (fun r => r.ott_platform) (fun a b => decide (a ≤ b))
          df.rows := by
      unfold ott_metrics
      rw [if_pos h]
    have hsnd : (ott_metrics df).2 =
        groupCountBy
          (fun r => match r.language, r.ott_platform with
            | some l, some o => some (l, o)
            | _, _ => none)
          pairLe df.rows := by
      unfold ott_metrics
      rw [if_pos h]
    constructor
    · intro k c
      rw [hfst]
      exact groupCountBy_mem _ _ _ _ _
    · intro l o c
      rw [hsnd, groupCountBy_mem]
      have hfe : df.rows.filter
          (fun r => decide ((match r.language, r.ott_platform with
            | some a, some b => some (a, b)
            | _, _ => none) = some (l, o)) && r.title.isSome) =
          df.rows.filter (fun r =>
            decide (r.language = some l) && decide (r.ott_platform = some o) &&
            r.title.isSome) := by
        refine List.filter_congr ?_
        intro r _
        rw [decide_eq_decide.mpr (pairKey_eq_some r l o)]
        · by_cases hA : r.language = some l <;>
            by_cases hB : r.ott_platform = some o <;> simp [hA, hB]
        · infer_instance
      rw [hfe]
      constructor
      · rintro ⟨⟨r, hr, hkey⟩, rfl⟩
        exact ⟨⟨r, hr, (pairKey_eq_some r l o).mp hkey⟩, rfl⟩
      · rintro ⟨⟨r, hr, hkey⟩, rfl⟩
        exact ⟨⟨r, hr, (pairKey_eq_some r l o).mpr hkey⟩, rfl⟩

/-- Claim C9 witness. A schema without the ott column yields two empty
tables; one with it yields a `("Netflix", 1)` group. -/
theorem ott_metrics_schema_branch_witness :
    ott_metrics ⟨["title"], [baseRow]⟩ = ([], []) ∧
    ("Netflix", 1) ∈ (ott_metrics
      ⟨["ott_platform"],
       [{ baseRow with title := some "F", ott_platform := some "Netflix" }]⟩).1 :=
  ⟨(ott_metrics_schema_branch _).1 (by decide),
   (((ott_metrics_schema_branch _).2 (by decide)).1 "Netflix" 1).mpr
     (by refine ⟨⟨_, List.mem_singleton_self _, rfl⟩, ?_⟩; decide)⟩

/-! ### Join lemmas for C1 -/

theorem leftJoin_map {α β γ : Type} (k1 : α → Nat) (k2 : β → Nat)
    (comb : α → Option β → γ) (proj : γ → α)
    (hproj : ∀ a ob, proj (comb a ob) = a) (left : List α) (right : List β)
    (h : ∀ a ∈ left, (right.filter (fun b => k2 b == k1 a)).length ≤ 1) :
    (leftJoin k1 k2 comb left right).map proj = left := by
  induction left with
  | nil => rfl
  | cons a l ih =>
    have hstep : leftJoin k1 k2 comb (a :: l) right =
        (match right.filter (fun b => k2 b == k1 a) with
          | [] => [comb a none]
          | ms => ms.map fun b => comb a (some b)) ++
          leftJoin k1 k2 comb l right := by
      unfold leftJoin
      exact List.flatMap_cons a l _
    rw [hstep, List.map_append, ih (fun x hx => h x (List.mem_cons_of_mem a hx))]
    cases hfil : right.filter (fun b => k2 b == k1 a) with
    | nil => simp [hproj]
    | cons b bs =>
      have hlen := h a (List.mem_cons_self a l)
      rw [hfil] at hlen
      have hbs : bs = [] := by
        simp only [List.length_cons] at hlen
        exact List.eq_nil_of_length_eq_zero (by omega)
      subst hbs
      simp [hproj]

theorem leftJoin_mem {α β γ : Type} {k1 : α → Nat} {k2 : β → Nat}
    {comb : α → Option β → γ} {left : List α} {right : List β} {u : γ}
    (hu : u ∈ leftJoin k1 k2 comb left right) :
    ∃ a ∈ left, ∃ ob, u = comb a ob ∧
      ((right.filter (fun b => k2 b == k1 a) = [] ∧ ob = none) ∨
       (∃ b ∈ right.filter (fun b => k2 b == k1 a), ob = some b)) := by
  unfold leftJoin at hu
  rw [List.mem_flatMap] at hu
  obtain ⟨a, ha, hmem⟩ := hu
  refine ⟨a, ha, ?_⟩
  cases hfil : right.filter (fun b => k2 b == k1 a) with
  | nil =>
    rw [hfil] at hmem
    exact ⟨none, List.mem_singleton.mp hmem, Or.inl ⟨rfl, rfl⟩⟩
  | cons b bs =>
    rw [hfil] at hmem
    obtain ⟨b', hb', rfl⟩ := List.mem_map.mp hmem
    exact ⟨some b', rfl, Or.inr ⟨b', hb', rfl⟩⟩

/-! ### C1: the loader/joiner -/

/-- Claim C1. When every dimension table has at most one row per join-key
value, the unified record set projects back onto the fact table row for
row (so it has exactly as many rows as the fact table and every fact row
appears, in order), and a fact row whose key matches no dimension row gets
`none` for that dimension's descriptive field rather than being
dropped. -/
theorem load_data_preserves_fact_rows (facts : List FactRow)
    (dirs : List DirRow) (gens : List GenRow) (langs : List LangRow)
    (hd : ∀ k, (dirs.filter (fun d => d.director_id == k)).length ≤ 1)
    (hg : ∀ k, (gens.filter (fun g => g.genreid == k)).length ≤ 1)
    (hl : ∀ k, (langs.filter (fun l => l.languageid == k)).length ≤ 1) :
    (load_data facts dirs gens langs).map Unified.fact = facts ∧
    (load_data facts dirs gens langs).length = facts.length ∧
    ∀ u ∈ load_data facts dirs gens langs,
      (dirs.filter (fun d => d.director_id == u.fact.directorid) = [] →
        u.director = none) ∧
      (gens.filter (fun g => g.genreid == u.fact.genreid) = [] →
        u.genre = none) ∧
      (langs.filter (fun l => l.languageid == u.fact.languageid) = [] →
        u.language = none) := by
  have e1 : (leftJoin (fun f => f.directorid) (fun d => d.director_id)
      (fun f d => (⟨f, d.map fun x => x.director⟩ : Unified12)) facts dirs).map
      (fun u => u.fact) = facts :=
    leftJoin_map _ _ _ _ (fun a ob => rfl) facts dirs
      (fun a _ => hd a.directorid)
  have e2 : (leftJoin (fun u : Unified12 => u.fact.genreid) (fun g => g.genreid)
      (fun u g => (⟨u.fact, u.director, g.map fun x => x.genre⟩ : Unified123))
      (leftJoin (fun f => f.directorid) (fun d => d.director_id)
        (fun f d => (⟨f, d.map fun x => x.director⟩ : Unified12)) facts dirs)
      gens).map
      (fun u => (⟨u.fact, u.director⟩ : Unified12)) =
      leftJoin (fun f => f.directorid) (fun d => d.director_id)
        (fun f d => (⟨f, d.map fun x => x.director⟩ : Unified12)) facts dirs :=
    leftJoin_map _ _ _ _ (fun a ob => rfl) _ gens
      (fun a _ => hg a.fact.genreid)
  have e3 : (leftJoin (fun u : Unified123 => u.fact.languageid)
      (fun l => l.languageid)
      (fun u l =>
        (⟨u.fact, u.director, u.genre, l.map fun x => x.language⟩ : Unified))
      (leftJoin (fun u : Unified12 => u.fact.genreid) (fun g => g.genreid)
        (fun u g => (⟨u.fact, u.director, g.map fun x => x.genre⟩ : Unified123))
        (leftJoin (fun f => f.directorid) (fun d => d.director_id)
          (fun f d => (⟨f, d.map fun x => x.director⟩ : Unified12)) facts dirs)
        gens)
      langs).map
      (fun u => (⟨u.fact, u.director, u.genre⟩ : Unified123)) =
      leftJoin (fun u : Unified12 => u.fact.genreid) (fun g => g.genreid)
        (fun u g => (⟨u.fact, u.director, g.map fun x => x.genre⟩ : Unified123))
        (leftJoin (fun f => f.directorid) (fun d => d.director_id)
          (fun f d => (⟨f, d.map fun x => x.director⟩ : Unified12)) facts dirs)
        gens :=
    leftJoin_map _ _ _ _ (fun a ob => rfl) _ langs
      (fun a _ => hl a.fact.languageid)
  have hmap : (load_data facts dirs gens langs).map Unified.fact = facts := by
    have t3 : (load_data facts dirs gens langs).map Unified.fact =
        (((load_data facts dirs gens langs).map
          (fun u => (⟨u.fact, u.director, u.genre⟩ : Unified123))).map
          (fun u => (⟨u.fact, u.director⟩ : Unified12))).map (fun u => u.fact) := by
      rw [List.map_map, List.map_map]
      rfl
    rw [t3]
    unfold load_data
    rw [e3, e2, e1]
  refine ⟨hmap, ?_, ?_⟩
  · have := congrArg List.length hmap
    simpa using this
  · intro u hu
    have hu' : u ∈ leftJoin (fun u : Unified123 => u.fact.languageid)
        (fun l => l.languageid)
        (fun u l =>
          (⟨u.fact, u.director, u.genre, l.map fun x => x.language⟩ : Unified))
        (leftJoin (fun u : Unified12 => u.fact.genreid) (fun g => g.genreid)
          (fun u g =>
            (⟨u.fact, u.director, g.map fun x => x.genre⟩ : Unified123))
          (leftJoin (fun f => f.directorid) (fun d => d.director_id)
            (fun f d => (⟨f, d.map fun x => x.director⟩ : Unified12)) facts dirs)
          gens)
        langs := hu
    obtain ⟨a3, ha3, ob3, rfl, hcase3⟩ := leftJoin_mem hu'
    obtain ⟨a2, ha2, ob2, rfl, hcase2⟩ := leftJoin_mem ha3
    obtain ⟨a1, ha1, ob1, rfl, hcase1⟩ := leftJoin_mem ha2
    refine ⟨?_, ?_, ?_⟩
    · intro hfe
      rcases hcase1 with ⟨_, rfl⟩ | ⟨b1, hb1, rfl⟩
      · rfl
      · obtain ⟨hb1mem, hb1pred⟩ := List.mem_filter.mp hb1
        exact absurd hb1pred (List.filter_eq_nil.mp hfe b1 hb1mem)
    · intro hfe
      rcases hcase2 with ⟨_, rfl⟩ | ⟨b2, hb2, rfl⟩
      · rfl
      · obtain ⟨hb2mem, hb2pred⟩ := List.mem_filter.mp hb2
        exact absurd hb2pred (List.filter_eq_nil.mp hfe b2 hb2mem)
    · intro hfe
      rcases hcase3 with ⟨_, rfl⟩ | ⟨b3, hb3, rfl⟩
      · rfl
      · obtain ⟨hb3mem, hb3pred⟩ := List.mem_filter.mp hb3
        exact absurd hb3pred (List.filter_eq_nil.mp hfe b3 hb3mem)

/-- Claim C1 witness. One fact row joined against singleton director and
genre dimensions and an empty language dimension. -/
theorem load_data_preserves_fact_rows_witness :
    (load_data [⟨some "F", 1, 2, 3⟩] [⟨1, "D"⟩] [⟨2, "G"⟩] []).map Unified.fact
      = [⟨some "F", 1, 2, 3⟩] :=
  (load_data_preserves_fact_rows _ _ _ _
    (fun _ => by simpa using List.length_filter_le _ _)
    (fun _ => by simpa using List.length_filter_le _ _)
    (fun _ => by simp)).1

end MovieAnalytics
